import Mathlib

/-!
Verification of the KM3D monocular-3D-detection decoding stage
(`mmdet3d/core/bbox/coders/km3d_decoder.py`).

The decoder is a pure numeric transformation of dense arrays.  We embed it
shallowly: tensors become curried functions over `Fin`-indexed axes with
exact rational entries (the reference uses binary floats; all claims under
study are structural, not rounding claims).  The transcendental functions
`atan`, `atan2`, `cos`, `sin` and the constant `np.pi` enter only through
the rotation decoding; they are abstracted as a parameter record
`TrigModel`, mirroring the fact that the reference calls opaque libm
routines on them.  Fallible tensor operations (`torch.topk` with `K`
larger than the dimension, `torch.inverse` of a singular matrix,
`torch.FloatTensor` applied to a list of multi-element tensors, the
`TypeError` of line 403 where the float tensor `bottom` is passed as an
`expand` size, and the `NameError` raised on the no-keypoint-heatmap
path where `hm_score` is unbound) are modelled with `Option`.
-/

/-- Abstract model of the real-valued transcendental functions used by the
decoder (`torch.atan`, `torch.atan2`, `torch.cos`, `torch.sin`, `np.pi`).
The decoder treats them as opaque scalar maps. -/
structure TrigModel where
  atan : ℚ → ℚ
  atan2 : ℚ → ℚ → ℚ
  cos : ℚ → ℚ
  sin : ℚ → ℚ
  pi : ℚ

/-! ### `torch.topk`

`torch.topk(v, K)` returns the `K` largest entries of `v` together with
their indices, sorted in descending order; on exact score ties the lower
index comes first.  It raises a `RuntimeError` when `K` exceeds the size
of the dimension, which we model with `Option` at the call sites.  We
model it by stably sorting the index list `[0, …, n-1]` by descending
score and taking the first `K` indices. -/

/-- Index order used to model `torch.topk`: `i` precedes `j` iff `i`
scores strictly higher, or scores are tied and `i` is the lower index. -/
def topkRel {n : ℕ} (v : Fin n → ℚ) (i j : Fin n) : Prop :=
  v j < v i ∨ (v i = v j ∧ i ≤ j)

instance {n : ℕ} (v : Fin n → ℚ) : DecidableRel (topkRel v) := fun i j => by
  unfold topkRel; infer_instance

instance {n : ℕ} (v : Fin n → ℚ) : IsTotal (Fin n) (topkRel v) where
  total i j := by
    unfold topkRel
    rcases lt_trichotomy (v i) (v j) with h | h | h
    · exact Or.inr (Or.inl h)
    · rcases le_total i j with hij | hij
      · exact Or.inl (Or.inr ⟨h, hij⟩)
      · exact Or.inr (Or.inr ⟨h.symm, hij⟩)
    · exact Or.inl (Or.inl h)

instance {n : ℕ} (v : Fin n → ℚ) : IsTrans (Fin n) (topkRel v) where
  trans i j k hij hjk := by
    unfold topkRel at *
    rcases hij with h1 | ⟨h1, h1'⟩ <;> rcases hjk with h2 | ⟨h2, h2'⟩
    · exact Or.inl (h2.trans h1)
    · exact Or.inl (h2 ▸ h1)
    · exact Or.inl (h1 ▸ h2)
    · exact Or.inr ⟨h1.trans h2, h1'.trans h2'⟩

/-- All indices of `v`, sorted the way `torch.topk` ranks them. -/
def sortedIdx {n : ℕ} (v : Fin n → ℚ) : List (Fin n) :=
  List.insertionSort (topkRel v) (List.finRange n)

/-- The index returned at rank `k` by `torch.topk(v, K)` (requires
`K ≤ n`; the raising behaviour is handled at the call sites). -/
def topkIdx {n : ℕ} (v : Fin n → ℚ) (K : ℕ) (hK : K ≤ n) (k : Fin K) : Fin n :=
  (sortedIdx v).get ⟨k.val, by
    unfold sortedIdx
    rw [List.length_insertionSort, List.length_finRange]
    omega⟩

/-! ### `_nms` (lines 6-21)

`F.max_pool2d(heat, 3, stride=1, padding=1)` computes, per batch item and
channel, the maximum of each 3×3 neighbourhood (the implicit `-inf`
padding means out-of-range positions are ignored); `heat * (hmax == heat)`
then zeroes every entry that is not the maximum of its neighbourhood. -/

/-- The 3×3 neighbourhood of `(i, j)` clipped to the map (the positions a
stride-1, padding-1 `max_pool2d` window actually reads). -/
def nbhd {H W : ℕ} (i : Fin H) (j : Fin W) : Finset (Fin H × Fin W) :=
  Finset.univ.filter fun p =>
    p.1.val ≤ i.val + 1 ∧ i.val ≤ p.1.val + 1 ∧
    p.2.val ≤ j.val + 1 ∧ j.val ≤ p.2.val + 1

/-- `F.max_pool2d(heat, (3,3), stride=1, padding=1)` at one position. -/
def hmax {B C H W : ℕ} (heat : Fin B → Fin C → Fin H → Fin W → ℚ)
    (b : Fin B) (c : Fin C) (i : Fin H) (j : Fin W) : ℚ :=
  (nbhd i j).sup' ⟨(i, j), by simp [nbhd]⟩ fun p => heat b c p.1 p.2

/-- `_nms`: `keep = (hmax == heat).float(); return heat * keep`. -/
def _nms {B C H W : ℕ} (heat : Fin B → Fin C → Fin H → Fin W → ℚ) :
    Fin B → Fin C → Fin H → Fin W → ℚ := fun b c i j =>
  heat b c i j * (if hmax heat b c i j = heat b c i j then 1 else 0)

/-! ### `_gather_feat` / `_permute_and_gather_feat` (lines 46-87)

`_gather_feat` works on a `[batch, positions, channels]` tensor and an
index tensor `[batch, K]`; the index is unsqueezed and expanded over the
channel axis, so entry `(b, k, c)` of the result is `feat[b, ind[b,k], c]`.
The `mask` parameter is `None` at every call site in this file and is
omitted.  `_permute_and_gather_feat` first permutes `[B,C,H,W]` to
`[B,H,W,C]` and flattens the spatial axes (row-major: position
`p = row·W + col`). -/

def _gather_feat {B N D K : ℕ} (feat : Fin B → Fin N → Fin D → ℚ)
    (ind : Fin B → Fin K → Fin N) : Fin B → Fin K → Fin D → ℚ :=
  fun b k d => feat b (ind b k) d

/-- `feat.permute(0, 2, 3, 1).view(B, H*W, C)`: the flattened spatial view
of a `[B, C, H, W]` tensor. -/
def featView {B C H W : ℕ} (feat : Fin B → Fin C → Fin H → Fin W → ℚ) :
    Fin B → Fin (H * W) → Fin C → ℚ :=
  fun b p c => feat b c p.divNat p.modNat

def _permute_and_gather_feat {B C H W K : ℕ}
    (feat : Fin B → Fin C → Fin H → Fin W → ℚ)
    (ind : Fin B → Fin K → Fin (H * W)) : Fin B → Fin K → Fin C → ℚ :=
  _gather_feat (featView feat) ind

/-! ### `_topk_channel` (lines 24-43) and `_topk` (lines 90-118) -/

/-- `scores.view(batch, cat, -1)`: one flattened spatial slice. -/
def chanFlat {B C H W : ℕ} (scores : Fin B → Fin C → Fin H → Fin W → ℚ)
    (b : Fin B) (c : Fin C) : Fin (H * W) → ℚ :=
  fun p => scores b c p.divNat p.modNat

/-- Output of `_topk_channel`: per batch item and channel, the top-`K`
scores, flat spatial indices and derived row/column coordinates. -/
structure ChanOut (B C K HW : ℕ) where
  scores : Fin B → Fin C → Fin K → ℚ
  indsF : Fin B → Fin C → Fin K → Fin HW
  ysQ : Fin B → Fin C → Fin K → ℚ
  xsQ : Fin B → Fin C → Fin K → ℚ

/-- The value `_topk_channel` produces when `K ≤ H·W`.  `topk_inds` is
already `< H·W`, so `topk_inds % (height * width)` is the identity;
`ys = (inds / width).int().float()` and `xs = inds % width`. -/
def _topk_channelOut {B C H W : ℕ} (scores : Fin B → Fin C → Fin H → Fin W → ℚ)
    (K : ℕ) (hK : K ≤ H * W) : ChanOut B C K (H * W) where
  scores := fun b c k => chanFlat scores b c (topkIdx (chanFlat scores b c) K hK k)
  indsF := fun b c k => topkIdx (chanFlat scores b c) K hK k
  ysQ := fun b c k => (((topkIdx (chanFlat scores b c) K hK k).val / W : ℕ) : ℚ)
  xsQ := fun b c k => (((topkIdx (chanFlat scores b c) K hK k).val % W : ℕ) : ℚ)

/-- `_topk_channel`; `torch.topk` raises when `K > H·W`. -/
def _topk_channel {B C H W : ℕ} (scores : Fin B → Fin C → Fin H → Fin W → ℚ)
    (K : ℕ) : Option (ChanOut B C K (H * W)) :=
  if hK : K ≤ H * W then some (_topk_channelOut scores K hK) else none

/-- Rank-`k` index of the stage-1 (per-class) top-`K` of `_topk`. -/
def st1Ind {B C H W : ℕ} (scores : Fin B → Fin C → Fin H → Fin W → ℚ)
    (K : ℕ) (hK : K ≤ H * W) (b : Fin B) (c : Fin C) (k : Fin K) : Fin (H * W) :=
  topkIdx (chanFlat scores b c) K hK k

/-- Rank-`k` score of the stage-1 (per-class) top-`K` of `_topk`. -/
def st1Score {B C H W : ℕ} (scores : Fin B → Fin C → Fin H → Fin W → ℚ)
    (K : ℕ) (hK : K ≤ H * W) (b : Fin B) (c : Fin C) (k : Fin K) : ℚ :=
  chanFlat scores b c (st1Ind scores K hK b c k)

/-- `topk_scores.view(batch, -1)`: the stage-1 scores flattened row-major
over `(class, rank)`, position `c·K + k`. -/
def s1Flat {B C H W : ℕ} (scores : Fin B → Fin C → Fin H → Fin W → ℚ)
    (K : ℕ) (hK : K ≤ H * W) (b : Fin B) (p : Fin (C * K)) : ℚ :=
  st1Score scores K hK b p.divNat p.modNat

/-- The stage-2 selection of `_topk`: rank-`k` position into the flattened
`(class, rank)` stage-1 score table. -/
def st2Sel {B C H W : ℕ} (scores : Fin B → Fin C → Fin H → Fin W → ℚ)
    (K : ℕ) (hK : K ≤ H * W) (hCK : K ≤ C * K) (b : Fin B) (k : Fin K) :
    Fin (C * K) :=
  topkIdx (s1Flat scores K hK b) K hCK k

/-- Output of `_topk`. -/
structure TopKOut (B K HW : ℕ) where
  scores : Fin B → Fin K → ℚ
  indsF : Fin B → Fin K → Fin HW
  clsN : Fin B → Fin K → ℕ
  ysQ : Fin B → Fin K → ℚ
  xsQ : Fin B → Fin K → ℚ

/-- The value `_topk` produces when both `torch.topk` calls are in range.
`topk_clses = (topk_ind / K).int()` is integer division of the flat
stage-2 position by `K`; indices, rows and columns are re-gathered from
the stage-1 tables at the selected positions. -/
def _topkOut {B C H W : ℕ} (scores : Fin B → Fin C → Fin H → Fin W → ℚ)
    (K : ℕ) (hK : K ≤ H * W) (hCK : K ≤ C * K) : TopKOut B K (H * W) where
  scores := fun b k => s1Flat scores K hK b (st2Sel scores K hK hCK b k)
  indsF := fun b k =>
    st1Ind scores K hK b (st2Sel scores K hK hCK b k).divNat
      (st2Sel scores K hK hCK b k).modNat
  clsN := fun b k => (st2Sel scores K hK hCK b k).val / K
  ysQ := fun b k =>
    (((st1Ind scores K hK b (st2Sel scores K hK hCK b k).divNat
        (st2Sel scores K hK hCK b k).modNat).val / W : ℕ) : ℚ)
  xsQ := fun b k =>
    (((st1Ind scores K hK b (st2Sel scores K hK hCK b k).divNat
        (st2Sel scores K hK hCK b k).modNat).val % W : ℕ) : ℚ)

/-- `_topk`: the stage-1 `torch.topk` raises unless `K ≤ H·W` and the
stage-2 `torch.topk` (over the `C·K` flattened stage-1 scores) raises
unless `K ≤ C·K`. -/
def _topk {B C H W : ℕ} (scores : Fin B → Fin C → Fin H → Fin W → ℚ)
    (K : ℕ) : Option (TopKOut B K (H * W)) :=
  if h : K ≤ H * W ∧ K ≤ C * K then some (_topkOut scores K h.1 h.2) else none

/-! ### Keypoint refinement (lines 359-406 of `object_pose_decode`)

The block reconciles the regression keypoints with the keypoint-heatmap
candidates.  Only lines 359-402 ever execute: line 403,
`(mask > 0).float().expand(bottom, num_joints, K, 2)`, passes `bottom` —
the float tensor of shape `(batch, num_joints, K, 1)` sliced from
`bboxes` at lines 397-398 — as a size argument of `expand`, which raises
`TypeError` (a multi-element float tensor has no `__index__`).  The
select of line 404, the flatten of line 405 and the permute of line 406
are therefore dead code and are not embedded; we embed the executed
fragment: thresholding, distances, arg-min and the gathers of the
matched candidate.  Distances are Euclidean
(`dist = (Σ (Δ)²) ** 0.5`); since `x ↦ √x` is injective and monotone on
the nonnegative reals, the arg-min over candidates of `dist` coincides
(ties included) with the arg-min of the squared distance, so we carry
squared distances. -/

/-- `torch.min(dim)`-style arg-min fold: scan the remaining indices,
replacing the current best only on a strict decrease, so the earliest
minimising index wins. -/
def argminList {n : ℕ} (f : Fin n → ℚ) : List (Fin n) → Fin n → Fin n
  | [], best => best
  | i :: rest, best => argminList f rest (if f i < f best then i else best)

/-- Index of the minimum of `f` (first index on ties), as returned by
`torch.min(..., dim=3)`. -/
def argminFin {n : ℕ} [NeZero n] (f : Fin n → ℚ) : Fin n :=
  argminList f ((List.finRange n).drop 1) ⟨0, Nat.pos_of_ne_zero (NeZero.ne n)⟩

/-- `mask = (hm_score > thresh).float()` with `thresh = 0.1`. -/
def kpMask (s : ℚ) : ℚ := if s > 1/10 then 1 else 0

/-- `hm_score = (1 - mask) * -1 + mask * hm_score`: candidates scoring
`≤ 0.1` get score `-1`. -/
def hmScore1 {B J K : ℕ} (hmScore0 : Fin B → Fin J → Fin K → ℚ)
    (b : Fin B) (j : Fin J) (c : Fin K) : ℚ :=
  (1 - kpMask (hmScore0 b j c)) * (-1) + kpMask (hmScore0 b j c) * hmScore0 b j c

/-- `hm_xs = (1 - mask) * (-10000) + mask * hm_xs` (same for `hm_ys`):
invalidated candidates are moved to the sentinel position. -/
def hmCoord1 {B J K : ℕ} (hmScore0 coord : Fin B → Fin J → Fin K → ℚ)
    (b : Fin B) (j : Fin J) (c : Fin K) : ℚ :=
  (1 - kpMask (hmScore0 b j c)) * (-10000) + kpMask (hmScore0 b j c) * coord b j c

/-- Squared Euclidean distance between regression keypoint `(b,j,k)` and
(thresholded) heatmap candidate `(b,j,c)` (`dist**2` of line 382). -/
def distSq {B J K : ℕ} (kpsReg : Fin B → Fin J → Fin K → ℚ × ℚ)
    (hmScore0 hmXs0 hmYs0 : Fin B → Fin J → Fin K → ℚ)
    (b : Fin B) (j : Fin J) (k : Fin K) (c : Fin K) : ℚ :=
  ((kpsReg b j k).1 - hmCoord1 hmScore0 hmXs0 b j c) ^ 2 +
    ((kpsReg b j k).2 - hmCoord1 hmScore0 hmYs0 b j c) ^ 2

/-- `min_ind` of line 383: the candidate matched to regression keypoint
`(b,j,k)`. -/
def minInd {B J K : ℕ} [NeZero K] (kpsReg : Fin B → Fin J → Fin K → ℚ × ℚ)
    (hmScore0 hmXs0 hmYs0 : Fin B → Fin J → Fin K → ℚ)
    (b : Fin B) (j : Fin J) (k : Fin K) : Fin K :=
  argminFin fun c => distSq kpsReg hmScore0 hmXs0 hmYs0 b j k c

/-- The matched heatmap score after the gather of line 385
(`hm_score.gather(2, min_ind)`): the thresholded score of the candidate
the arg-min matched to regression keypoint `(b, j, k)`. -/
def hmScoreG {B J K : ℕ} [NeZero K] (kpsReg : Fin B → Fin J → Fin K → ℚ × ℚ)
    (hmScore0 hmXs0 hmYs0 : Fin B → Fin J → Fin K → ℚ)
    (b : Fin B) (j : Fin J) (k : Fin K) : ℚ :=
  hmScore1 hmScore0 b j (minInd kpsReg hmScore0 hmXs0 hmYs0 b j k)

/-! ### `transform_img2cam` (lines 121-278)

The keypoint tensor is `[batch, boxes, 18]`: the function appends a
hardcoded homogeneous row of width **9**, so exactly 9 keypoints
(18 channels) are accepted.  `data_B`/`data_C` are built with
`torch.FloatTensor([t₁, …, t₁₆])` where each `tᵢ` is a tensor of shape
`(batch, boxes, 1)`; that constructor converts each element with
`Tensor.item()`, which raises `ValueError` unless the element has exactly
one entry, i.e. unless `batch · boxes = 1`.  In the surviving case the
result is a 16-vector holding the single object's values, broadcast by
`matrix_B[:, :, :] = data_B`.  `torch.inverse` raises on an exactly
singular matrix.  Both failure modes are folded into the `Option` guard
of `transform_img2cam`. -/

/-- Transformed keypoints (lines 160-172): each of the 9 keypoint pairs is
mapped through the per-batch affine `trans_output_inv` (a homogeneous
coordinate 1 is appended before the batched matrix multiply), and the
result is re-interleaved as `[x, y, x, y, …]`. -/
def kpsTOf {B N : ℕ} (kps2 : Fin B → Fin N → Fin 18 → ℚ)
    (out_inv : Fin B → Fin 2 → Fin 3 → ℚ) (b : Fin B) (n : Fin N)
    (ch : Fin 18) : ℚ :=
  let x := kps2 b n ⟨2 * (ch.val / 2), by omega⟩
  let y := kps2 b n ⟨2 * (ch.val / 2) + 1, by omega⟩
  if ch.val % 2 = 0 then
    out_inv b 0 0 * x + out_inv b 0 1 * y + out_inv b 0 2
  else
    out_inv b 1 0 * x + out_inv b 1 1 * y + out_inv b 1 2

/-- `alpna_pre` (lines 176-183): bin selection by `rot[..,1] > rot[..,5]`,
written exactly as the code's indicator blend
`alpha1 * alpha_idx + alpha2 * (1 - alpha_idx)`. -/
def alphaOf {B N : ℕ} (rot8 : Fin B → Fin N → Fin 8 → ℚ) (T : TrigModel)
    (b : Fin B) (n : Fin N) : ℚ :=
  let idx : ℚ := if rot8 b n 1 > rot8 b n 5 then 1 else 0
  let alpha1 := T.atan (rot8 b n 2 / rot8 b n 3) + -(1/2) * T.pi
  let alpha2 := T.atan (rot8 b n 6 / rot8 b n 7) + (1/2) * T.pi
  alpha1 * idx + alpha2 * (1 - idx)

/-- `rot_y` (lines 186-189): `alpna_pre + atan2(kps[..,16] - c_x, f)`,
then the two sequential masked wraps
`rot_y[rot_y > π] -= 2π; rot_y[rot_y < -π] += 2π` (the second test reads
the value the first wrap produced). -/
def rotYOf {B N : ℕ} (kps2 : Fin B → Fin N → Fin 18 → ℚ)
    (rot8 : Fin B → Fin N → Fin 8 → ℚ)
    (out_inv : Fin B → Fin 2 → Fin 3 → ℚ)
    (calib : Fin B → Fin 3 → Fin 4 → ℚ) (T : TrigModel)
    (b : Fin B) (n : Fin N) : ℚ :=
  let s := alphaOf rot8 T b n +
    T.atan2 (kpsTOf kps2 out_inv b n ⟨16, by omega⟩ - calib b 0 2) (calib b 0 0)
  let s1 := if s > T.pi then s - 2 * T.pi else s
  if s1 < -T.pi then s1 + 2 * T.pi else s1

/-- `kp_norm` (lines 194-202): the first 16 transformed keypoint
coordinates, principal point subtracted (`cxy = [c_x, c_y]` repeated 8
times) and divided by the focal length `calib[..,0,0]`. -/
def kpNormOf {B N : ℕ} (kps2 : Fin B → Fin N → Fin 18 → ℚ)
    (out_inv : Fin B → Fin 2 → Fin 3 → ℚ)
    (calib : Fin B → Fin 3 → Fin 4 → ℚ) (b : Fin B) (n : Fin N)
    (r : Fin 16) : ℚ :=
  (kpsTOf kps2 out_inv b n ⟨r.val, by omega⟩ -
    (if r.val % 2 = 0 then calib b 0 2 else calib b 1 2)) / calib b 0 0

/-- `data_B` (lines 221-230) for one object, with
`height = dim[..,0]`, `width = dim[..,1]`, `length = dim[..,2]`. -/
def matrixBOf {B N : ℕ} (kps2 : Fin B → Fin N → Fin 18 → ℚ)
    (dimF : Fin B → Fin N → Fin 3 → ℚ) (rot8 : Fin B → Fin N → Fin 8 → ℚ)
    (out_inv : Fin B → Fin 2 → Fin 3 → ℚ)
    (calib : Fin B → Fin 3 → Fin 4 → ℚ) (T : TrigModel)
    (b : Fin B) (n : Fin N) (r : Fin 16) : ℚ :=
  let h := dimF b n 0
  let w := dimF b n 1
  let l := dimF b n 2
  let c := T.cos (rotYOf kps2 rot8 out_inv calib T b n)
  let s := T.sin (rotYOf kps2 rot8 out_inv calib T b n)
  ![l * (1/2) * c + w * (1/2) * s, h * (1/2),
    l * (1/2) * c - w * (1/2) * s, h * (1/2),
    -l * (1/2) * c - w * (1/2) * s, h * (1/2),
    -l * (1/2) * c + w * (1/2) * s, h * (1/2),
    l * (1/2) * c + w * (1/2) * s, -h * (1/2),
    l * (1/2) * c - w * (1/2) * s, -h * (1/2),
    -l * (1/2) * c - w * (1/2) * s, -h * (1/2),
    -l * (1/2) * c + w * (1/2) * s, -h * (1/2)] r

/-- `data_C` (lines 234-251) for one object. -/
def matrixCOf {B N : ℕ} (kps2 : Fin B → Fin N → Fin 18 → ℚ)
    (dimF : Fin B → Fin N → Fin 3 → ℚ) (rot8 : Fin B → Fin N → Fin 8 → ℚ)
    (out_inv : Fin B → Fin 2 → Fin 3 → ℚ)
    (calib : Fin B → Fin 3 → Fin 4 → ℚ) (T : TrigModel)
    (b : Fin B) (n : Fin N) (r : Fin 16) : ℚ :=
  let w := dimF b n 1
  let l := dimF b n 2
  let c := T.cos (rotYOf kps2 rot8 out_inv calib T b n)
  let s := T.sin (rotYOf kps2 rot8 out_inv calib T b n)
  ![-l * (1/2) * s + w * (1/2) * c, -l * (1/2) * s + w * (1/2) * c,
    -l * (1/2) * s - w * (1/2) * c, -l * (1/2) * s - w * (1/2) * c,
    l * (1/2) * s - w * (1/2) * c, l * (1/2) * s - w * (1/2) * c,
    l * (1/2) * s + w * (1/2) * c, l * (1/2) * s + w * (1/2) * c,
    -l * (1/2) * s + w * (1/2) * c, -l * (1/2) * s + w * (1/2) * c,
    -l * (1/2) * s - w * (1/2) * c, -l * (1/2) * s - w * (1/2) * c,
    l * (1/2) * s - w * (1/2) * c, l * (1/2) * s - w * (1/2) * c,
    l * (1/2) * s + w * (1/2) * c, l * (1/2) * s + w * (1/2) * c] r

/-- `matrix_right = matrix_B - kp_norm * matrix_C` (line 256). -/
def rhsOf {B N : ℕ} (kps2 : Fin B → Fin N → Fin 18 → ℚ)
    (dimF : Fin B → Fin N → Fin 3 → ℚ) (rot8 : Fin B → Fin N → Fin 8 → ℚ)
    (out_inv : Fin B → Fin 2 → Fin 3 → ℚ)
    (calib : Fin B → Fin 3 → Fin 4 → ℚ) (T : TrigModel)
    (b : Fin B) (n : Fin N) (r : Fin 16) : ℚ :=
  matrixBOf kps2 dimF rot8 out_inv calib T b n r -
    kpNormOf kps2 out_inv calib b n r * matrixCOf kps2 dimF rot8 out_inv calib T b n r

/-- `matrix_left = torch.cat([const, kp], dim=3)` (lines 216-218): the
16×3 design matrix whose first two columns are the `const` input and whose
third column is `kp_norm`. -/
def matrixLeftOf {B N : ℕ} (kps2 : Fin B → Fin N → Fin 18 → ℚ)
    (out_inv : Fin B → Fin 2 → Fin 3 → ℚ)
    (calib : Fin B → Fin 3 → Fin 4 → ℚ) (cst : Fin 16 → Fin 2 → ℚ)
    (b : Fin B) (n : Fin N) : Matrix (Fin 16) (Fin 3) ℚ :=
  Matrix.of fun r c3 =>
    ![cst r 0, cst r 1, kpNormOf kps2 out_inv calib b n r] c3

/-- `points_3d = AᵀA` (line 266). -/
def AtAOf {B N : ℕ} (kps2 : Fin B → Fin N → Fin 18 → ℚ)
    (out_inv : Fin B → Fin 2 → Fin 3 → ℚ)
    (calib : Fin B → Fin 3 → Fin 4 → ℚ) (cst : Fin 16 → Fin 2 → ℚ)
    (b : Fin B) (n : Fin N) : Matrix (Fin 3) (Fin 3) ℚ :=
  Matrix.transpose (matrixLeftOf kps2 out_inv calib cst b n) *
    matrixLeftOf kps2 out_inv calib cst b n

/-- Explicit 3×3 determinant (cofactor expansion along the first row). -/
def det3 (M : Matrix (Fin 3) (Fin 3) ℚ) : ℚ :=
  M 0 0 * (M 1 1 * M 2 2 - M 1 2 * M 2 1) -
    M 0 1 * (M 1 0 * M 2 2 - M 1 2 * M 2 0) +
    M 0 2 * (M 1 0 * M 2 1 - M 1 1 * M 2 0)

/-- `torch.inverse` of a 3×3 matrix: the cofactor (adjugate) inverse. -/
def inv3 (M : Matrix (Fin 3) (Fin 3) ℚ) : Matrix (Fin 3) (Fin 3) ℚ :=
  (det3 M)⁻¹ •
    !![M 1 1 * M 2 2 - M 1 2 * M 2 1, M 0 2 * M 2 1 - M 0 1 * M 2 2,
        M 0 1 * M 1 2 - M 0 2 * M 1 1;
      M 1 2 * M 2 0 - M 1 0 * M 2 2, M 0 0 * M 2 2 - M 0 2 * M 2 0,
        M 0 2 * M 1 0 - M 0 0 * M 1 2;
      M 1 0 * M 2 1 - M 1 1 * M 2 0, M 0 1 * M 2 0 - M 0 0 * M 2 1,
        M 0 0 * M 1 1 - M 0 1 * M 1 0]

/-- `points_3d_inv = inverse(AᵀA) ⬝ Aᵀ ⬝ matrix_right` (lines 267-276). -/
def posOf {B N : ℕ} (kps2 : Fin B → Fin N → Fin 18 → ℚ)
    (dimF : Fin B → Fin N → Fin 3 → ℚ) (rot8 : Fin B → Fin N → Fin 8 → ℚ)
    (out_inv : Fin B → Fin 2 → Fin 3 → ℚ)
    (calib : Fin B → Fin 3 → Fin 4 → ℚ) (cst : Fin 16 → Fin 2 → ℚ)
    (T : TrigModel) (b : Fin B) (n : Fin N) : Fin 3 → ℚ :=
  (inv3 (AtAOf kps2 out_inv calib cst b n) *
      Matrix.transpose (matrixLeftOf kps2 out_inv calib cst b n)).mulVec
    (rhsOf kps2 dimF rot8 out_inv calib T b n)

/-- Return bundle of `transform_img2cam`. -/
structure TransformOut (B N : ℕ) where
  pos : Fin B → Fin N → Fin 3 → ℚ
  rotY : Fin B → Fin N → ℚ
  kpsT : Fin B → Fin N → Fin 18 → ℚ

/-- `transform_img2cam`.  Returns `none` when the `torch.FloatTensor`
scalar conversion raises (any input with `batch · boxes ≠ 1`) or when
`torch.inverse` hits a singular `AᵀA`. -/
def transform_img2cam {B N : ℕ} (kps2 : Fin B → Fin N → Fin 18 → ℚ)
    (dimF : Fin B → Fin N → Fin 3 → ℚ) (rot8 : Fin B → Fin N → Fin 8 → ℚ)
    (out_inv : Fin B → Fin 2 → Fin 3 → ℚ)
    (calib : Fin B → Fin 3 → Fin 4 → ℚ) (cst : Fin 16 → Fin 2 → ℚ)
    (T : TrigModel) : Option (TransformOut B N) :=
  if B * N = 1 ∧ ∀ (b : Fin B) (n : Fin N), det3 (AtAOf kps2 out_inv calib cst b n) ≠ 0 then
    some ⟨posOf kps2 dimF rot8 out_inv calib cst T,
          rotYOf kps2 rot8 out_inv calib T,
          kpsTOf kps2 out_inv⟩
  else none

/-! ### `object_pose_decode` (lines 281-413)

`num_joints = kps.shape[1] // 2` and the refinement block is written for
the 18-channel (9-joint) keypoint regression field that
`transform_img2cam`'s width-9 homogeneous row expects.  `prob` is
gathered unconditionally, so it is a required input of the model.  When
`reg` (resp. `kps_offsets`) is `None`, the constant `0.5` is added to
both coordinates instead of the gathered offsets.

The function never returns: when `kps_heatmap is None` the refinement
block is skipped, `transform_img2cam` runs at line 407 (its own failures
raise first), and line 410 then dies with `NameError` on `hm_score`, a
local assigned only inside the skipped block; when `kps_heatmap` is
supplied, lines 362-402 execute (modelled by `kpsRegOf`, `hmXs0Of`,
`hmYs0Of`, `hmScore1`, `hmCoord1`, `distSq`, `minInd`, `hmScoreG` above)
and line 403 then raises `TypeError` because the float tensor `bottom`
is passed as an `expand` size.  Every arm of the embedding therefore
ends in `none` after the fallible stages that raise earlier
(`torch.topk` out of range) have had their chance. -/

/-- All inputs of `object_pose_decode` other than `K` (the required
tensors, the three optional tensors, `meta` and `const`). -/
structure DecodeIn (B C H W : ℕ) where
  heat : Fin B → Fin C → Fin H → Fin W → ℚ
  wh : Fin B → Fin 2 → Fin H → Fin W → ℚ
  kps : Fin B → Fin 18 → Fin H → Fin W → ℚ
  dimT : Fin B → Fin 3 → Fin H → Fin W → ℚ
  rot : Fin B → Fin 8 → Fin H → Fin W → ℚ
  prob : Fin B → Fin 1 → Fin H → Fin W → ℚ
  reg : Option (Fin B → Fin 2 → Fin H → Fin W → ℚ)
  kps_heatmap : Option (Fin B → Fin 9 → Fin H → Fin W → ℚ)
  kps_offsets : Option (Fin B → Fin 2 → Fin H → Fin W → ℚ)
  out_inv : Fin B → Fin 2 → Fin 3 → ℚ
  calib : Fin B → Fin 3 → Fin 4 → ℚ
  cst : Fin 16 → Fin 2 → ℚ
  T : TrigModel

/-- Regression keypoints after the center-anchor add of lines 330-333
(`kps[..., ::2] += xs`, `kps[..., 1::2] += ys`, with the integer `xs, ys`
straight out of `_topk`). -/
def kpsDecoded {B C H W K : ℕ} (din : DecodeIn B C H W) (o : TopKOut B K (H * W))
    (b : Fin B) (k : Fin K) (ch : Fin 18) : ℚ :=
  _permute_and_gather_feat din.kps o.indsF b k ch +
    (if ch.val % 2 = 0 then o.xsQ b k else o.ysQ b k)

/-- `xs` after the `reg` block (lines 334-341): gathered sub-pixel offset
if `reg` is supplied, else the constant `+ 0.5`. -/
def xsAdj {B C H W K : ℕ} (din : DecodeIn B C H W) (o : TopKOut B K (H * W))
    (b : Fin B) (k : Fin K) : ℚ :=
  match din.reg with
  | some rg => o.xsQ b k + _permute_and_gather_feat rg o.indsF b k 0
  | none => o.xsQ b k + 1/2

/-- `ys` after the `reg` block (lines 334-341). -/
def ysAdj {B C H W K : ℕ} (din : DecodeIn B C H W) (o : TopKOut B K (H * W))
    (b : Fin B) (k : Fin K) : ℚ :=
  match din.reg with
  | some rg => o.ysQ b k + _permute_and_gather_feat rg o.indsF b k 1
  | none => o.ysQ b k + 1/2

/-- Gathered box width/height (lines 342-343). -/
def whG {B C H W K : ℕ} (din : DecodeIn B C H W) (o : TopKOut B K (H * W))
    (b : Fin B) (k : Fin K) (c2 : Fin 2) : ℚ :=
  _permute_and_gather_feat din.wh o.indsF b k c2

/-- `bboxes` (lines 347-351): `[xs - w/2, ys - h/2, xs + w/2, ys + h/2]`. -/
def bboxesOf {B C H W K : ℕ} (din : DecodeIn B C H W) (o : TopKOut B K (H * W))
    (b : Fin B) (k : Fin K) : Fin 4 → ℚ :=
  ![xsAdj din o b k - whG din o b k 0 / 2, ysAdj din o b k - whG din o b k 1 / 2,
    xsAdj din o b k + whG din o b k 0 / 2, ysAdj din o b k + whG din o b k 1 / 2]

/-- Gathered dimensions (lines 352-353). -/
def dimG {B C H W K : ℕ} (din : DecodeIn B C H W) (o : TopKOut B K (H * W))
    (b : Fin B) (k : Fin K) (d : Fin 3) : ℚ :=
  _permute_and_gather_feat din.dimT o.indsF b k d

/-- Gathered rotation encoding (lines 355-356). -/
def rotG {B C H W K : ℕ} (din : DecodeIn B C H W) (o : TopKOut B K (H * W))
    (b : Fin B) (k : Fin K) (r : Fin 8) : ℚ :=
  _permute_and_gather_feat din.rot o.indsF b k r

/-- Gathered probability (lines 357-358). -/
def probG {B C H W K : ℕ} (din : DecodeIn B C H W) (o : TopKOut B K (H * W))
    (b : Fin B) (k : Fin K) : ℚ :=
  _permute_and_gather_feat din.prob o.indsF b k 0

/-- The regression keypoints reshaped to `[B, J, K, 2]` (line 362). -/
def kpsRegOf {B C H W K : ℕ} (din : DecodeIn B C H W) (o : TopKOut B K (H * W))
    (b : Fin B) (j : Fin 9) (k : Fin K) : ℚ × ℚ :=
  (kpsDecoded din o b k ⟨2 * j.val, by omega⟩,
   kpsDecoded din o b k ⟨2 * j.val + 1, by omega⟩)

/-- Heatmap-candidate x after the `kps_offsets` block (lines 367-375):
`hm_xs + offset₀` if supplied, else `hm_xs + 0.5`.  The gathered offset
for channel `(b, j, c)` reads `kps_offsets` at the candidate's flat
spatial index. -/
def hmXs0Of {B C H W K : ℕ} (din : DecodeIn B C H W) (ch : ChanOut B 9 K (H * W))
    (b : Fin B) (j : Fin 9) (c : Fin K) : ℚ :=
  ch.xsQ b j c +
    (match din.kps_offsets with
     | some kpo => featView kpo b (ch.indsF b j c) 0
     | none => 1/2)

/-- Heatmap-candidate y after the `kps_offsets` block (lines 367-375). -/
def hmYs0Of {B C H W K : ℕ} (din : DecodeIn B C H W) (ch : ChanOut B 9 K (H * W))
    (b : Fin B) (j : Fin 9) (c : Fin K) : ℚ :=
  ch.ysQ b j c +
    (match din.kps_offsets with
     | some kpo => featView kpo b (ch.indsF b j c) 1
     | none => 1/2)

/-- `object_pose_decode`.  `none` models the run-time errors, in program
order: `torch.topk` out of range inside `_topk` / `_topk_channel`, then —
on the `kps_heatmap` path — the `TypeError` of line 403 (`bottom` used as
an expand size), and — on the `None` path — the `NameError` of line 410
on the unbound `hm_score` (whatever `transform_img2cam` does at line 407,
no continuation of that arm returns, so its observable result is `none`
as well).  No input produces a detection array. -/
def object_pose_decode {B C H W : ℕ} (K : ℕ) [NeZero K] (din : DecodeIn B C H W) :
    Option (Fin B → Fin K → List ℚ) :=
  (_topk (_nms din.heat) K).bind fun _ =>
    match din.kps_heatmap with
    | none => none
    | some kph => (_topk_channel (_nms kph) K).bind fun _ => none

/-! ### Concrete inputs used by the witness and counterexample theorems -/

/-- A concrete trig model (the claims under study are structural, so any
instantiation of the abstracted transcendental maps is admissible). -/
def T0 : TrigModel where
  atan := fun _ => 0
  atan2 := fun _ _ => 0
  cos := fun _ => 1
  sin := fun _ => 0
  pi := 4

/-- The KM3D corner sign pattern: rows alternate `(-1, 0)` and `(0, -1)`. -/
def cstEx : Fin 16 → Fin 2 → ℚ := fun r c =>
  if c.val = 0 then (if r.val % 2 = 0 then -1 else 0)
  else (if r.val % 2 = 1 then -1 else 0)

/-- Keypoint heatmap for `dinEx`: identically 0, so every candidate is
invalidated and the regression keypoints survive refinement. -/
def kphEx : Fin 1 → Fin 9 → Fin 1 → Fin 1 → ℚ := fun _ _ _ _ => 0

/-- A complete 1×1×1×1 decoder input on the keypoint-heatmap path. -/
def dinEx : DecodeIn 1 1 1 1 where
  heat := fun _ _ _ _ => 9/10
  wh := fun _ _ _ _ => 1
  kps := fun _ ch _ _ => (ch.val : ℚ)
  dimT := fun _ d _ _ => (d.val : ℚ) + 2
  rot := fun _ _ _ _ => 1
  prob := fun _ _ _ _ => 1/2
  reg := none
  kps_heatmap := some kphEx
  kps_offsets := none
  out_inv := fun _ i j => if j.val = i.val then 1 else 0
  calib := fun _ i j => if i.val = 0 ∧ j.val = 0 then 1 else 0
  cst := cstEx
  T := T0

/-- `dinEx` with the optional inputs (`reg`, `kps_heatmap`, `kps_offsets`)
all absent. -/
def dinExNoKph : DecodeIn 1 1 1 1 :=
  { dinEx with kps_heatmap := none }

/-- Concrete `transform_img2cam` keypoints: channel `ch` holds `ch`. -/
def kps2Ex : Fin 1 → Fin 1 → Fin 18 → ℚ := fun _ _ ch => (ch.val : ℚ)

def dimFEx : Fin 1 → Fin 1 → Fin 3 → ℚ := fun _ _ d => (d.val : ℚ) + 2

def rot8Ex : Fin 1 → Fin 1 → Fin 8 → ℚ := fun _ _ _ => 1

def outInvEx : Fin 1 → Fin 2 → Fin 3 → ℚ := fun _ i j => if j.val = i.val then 1 else 0

def calibEx : Fin 1 → Fin 3 → Fin 4 → ℚ := fun _ i j => if i.val = 0 ∧ j.val = 0 then 1 else 0

/-- Heatmap with a negative entry (peak-suppression counterexample). -/
def heatC6 : Fin 1 → Fin 1 → Fin 1 → Fin 2 → ℚ := fun _ _ _ j =>
  if j.val = 0 then -1 else 0

/-- Nonnegative heatmap with a strict local maximum at column 0. -/
def heatC6w : Fin 1 → Fin 1 → Fin 1 → Fin 2 → ℚ := fun _ _ _ j =>
  if j.val = 0 then 2 else 1

/-- Two classes on a 1×1 map: `K = 2` satisfies `K ≤ C·H·W` but not the
per-class stage-1 bound `K ≤ H·W`. -/
def heatC7 : Fin 1 → Fin 2 → Fin 1 → Fin 1 → ℚ := fun _ _ _ _ => 0

/-- 1×1×1×1 heatmap for the `_topk` witness. -/
def heatC7w : Fin 1 → Fin 1 → Fin 1 → Fin 1 → ℚ := fun _ _ _ _ => 7/10

/-- `[B,C,H,W] = [1,1,2,3]` feature map holding `10·row + col`. -/
def featC9 : Fin 1 → Fin 1 → Fin 2 → Fin 3 → ℚ := fun _ _ i j =>
  (i.val : ℚ) * 10 + (j.val : ℚ)

def indC9 : Fin 1 → Fin 1 → Fin (2 * 3) := fun _ _ => ⟨4, by omega⟩

/-- The `TransformOut` bundle produced on the `kps2Ex` inputs. -/
def trC2 : TransformOut 1 1 where
  pos := posOf kps2Ex dimFEx rot8Ex outInvEx calibEx cstEx T0
  rotY := rotYOf kps2Ex rot8Ex outInvEx calibEx T0
  kpsT := kpsTOf kps2Ex outInvEx

/-- The `_topk` output on the `dinEx` input. -/
def oEx : TopKOut 1 1 (1 * 1) :=
  _topkOut (_nms dinEx.heat) 1 (by omega) (by omega)

/-- Keypoint heatmap realising C3's acceptance scenario: every candidate
scores 1 (far above the 0.1 threshold). -/
def kphC3 : Fin 1 → Fin 9 → Fin 1 → Fin 1 → ℚ := fun _ _ _ _ => 1

/-- Decoder input for C3: the keypoint regression field is constant 1/2,
so (with `reg = None` the candidate lands at `(0.5, 0.5)` as well) every
score-1 heatmap candidate sits exactly on its regression keypoint,
strictly inside the unit box around the detection centre. -/
def dinC3 : DecodeIn 1 1 1 1 :=
  { dinEx with kps := fun _ _ _ _ => 1/2, kps_heatmap := some kphC3 }

/-- The `_topk_channel` output on `dinC3`'s keypoint heatmap. -/
def chC3 : ChanOut 1 9 1 (1 * 1) :=
  _topk_channelOut (_nms kphC3) 1 (by omega)

/-- Keypoint heatmap for C8: every candidate scores 0.05 (below the 0.1
threshold), so every candidate is invalidated. -/
def kphC8 : Fin 1 → Fin 9 → Fin 1 → Fin 1 → ℚ := fun _ _ _ _ => 1/20

/-- Decoder input for C8. -/
def dinC8 : DecodeIn 1 1 1 1 :=
  { dinEx with kps_heatmap := some kphC8 }

/-- The `_topk_channel` output on `dinC8`'s keypoint heatmap. -/
def chC8 : ChanOut 1 9 1 (1 * 1) :=
  _topk_channelOut (_nms kphC8) 1 (by omega)

/-! ## Helper lemmas -/

theorem length_sortedIdx {n : ℕ} (v : Fin n → ℚ) : (sortedIdx v).length = n := by
  unfold sortedIdx
  rw [List.length_insertionSort, List.length_finRange]

theorem sorted_sortedIdx {n : ℕ} (v : Fin n → ℚ) :
    List.Sorted (topkRel v) (sortedIdx v) :=
  List.sorted_insertionSort _ _

/-- Scores listed by `torch.topk` are descending in rank. -/
theorem topkIdx_score_antitone {n : ℕ} (v : Fin n → ℚ) (K : ℕ) (hK : K ≤ n)
    {i j : Fin K} (hij : i ≤ j) :
    v (topkIdx v K hK j) ≤ v (topkIdx v K hK i) := by
  rcases eq_or_lt_of_le hij with rfl | hlt
  · exact le_refl _
  · have h := (sorted_sortedIdx v).rel_get_of_lt
      (a := ⟨i.val, by rw [length_sortedIdx]; omega⟩)
      (b := ⟨j.val, by rw [length_sortedIdx]; omega⟩)
      (Fin.mk_lt_mk.mpr hlt)
    rcases h with h | ⟨h, _⟩
    · exact le_of_lt h
    · exact le_of_eq h.symm

theorem self_mem_nbhd {H W : ℕ} (i : Fin H) (j : Fin W) : (i, j) ∈ nbhd i j := by
  simp [nbhd]

theorem _nms_eq_ite {B C H W : ℕ} (heat : Fin B → Fin C → Fin H → Fin W → ℚ)
    (b : Fin B) (c : Fin C) (i : Fin H) (j : Fin W) :
    _nms heat b c i j = if hmax heat b c i j = heat b c i j then heat b c i j else 0 := by
  unfold _nms
  split <;> ring

theorem le_hmax {B C H W : ℕ} (heat : Fin B → Fin C → Fin H → Fin W → ℚ)
    (b : Fin B) (c : Fin C) (i : Fin H) (j : Fin W)
    {p : Fin H × Fin W} (hp : p ∈ nbhd i j) :
    heat b c p.1 p.2 ≤ hmax heat b c i j := by
  have h := Finset.le_sup' (s := nbhd i j) (fun q : Fin H × Fin W => heat b c q.1 q.2) hp
  exact h

theorem argminList_le {n : ℕ} (f : Fin n → ℚ) (l : List (Fin n)) (best : Fin n) :
    f (argminList f l best) ≤ f best ∧ ∀ i ∈ l, f (argminList f l best) ≤ f i := by
  induction l generalizing best with
  | nil => exact ⟨le_refl _, by simp⟩
  | cons i rest ih =>
    have h := ih (if f i < f best then i else best)
    constructor
    · refine le_trans h.1 ?_
      split <;> simp_all [le_of_lt]
    · intro x hx
      rcases List.mem_cons.mp hx with rfl | hx
      · refine le_trans h.1 ?_
        split <;> simp_all [le_of_lt]
      · exact h.2 x hx

/-- The arg-min really minimises. -/
theorem argminFin_le {n : ℕ} [NeZero n] (f : Fin n → ℚ) (c : Fin n) :
    f (argminFin f) ≤ f c := by
  unfold argminFin
  have h := argminList_le f ((List.finRange n).drop 1) ⟨0, Nat.pos_of_ne_zero (NeZero.ne n)⟩
  by_cases hc : c = ⟨0, Nat.pos_of_ne_zero (NeZero.ne n)⟩
  · exact hc ▸ h.1
  · refine h.2 c ?_
    have hmem : c ∈ List.finRange n := List.mem_finRange c
    have : List.finRange n = (List.finRange n).take 1 ++ (List.finRange n).drop 1 :=
      (List.take_append_drop 1 _).symm
    rw [this] at hmem
    rcases List.mem_append.mp hmem with h1 | h1
    · exfalso
      apply hc
      have hlen : 0 < (List.finRange n).length := by
        rw [List.length_finRange]; exact Nat.pos_of_ne_zero (NeZero.ne n)
      have : (List.finRange n).take 1 = [⟨0, Nat.pos_of_ne_zero (NeZero.ne n)⟩] := by
        rcases hl : List.finRange n with _ | ⟨a, rest⟩
        · rw [hl] at hlen; simp at hlen
        · have : a = ⟨0, Nat.pos_of_ne_zero (NeZero.ne n)⟩ := by
            have := List.get_finRange (n := n) (i := 0) (by simp [hl])
            simp [hl] at this
            simp [← this]
          simp [this]
      rw [this] at h1
      simpa using h1
    · exact h1


theorem nms_apply {B C H W : ℕ} (heat : Fin B → Fin C → Fin H → Fin W → ℚ)
    (b : Fin B) (c : Fin C) (i : Fin H) (j : Fin W) :
    _nms heat b c i j =
      heat b c i j * (if hmax heat b c i j = heat b c i j then 1 else 0) := rfl

theorem nms_cases {B C H W : ℕ} (heat : Fin B → Fin C → Fin H → Fin W → ℚ)
    (b : Fin B) (c : Fin C) (i : Fin H) (j : Fin W) :
    _nms heat b c i j = heat b c i j ∨ _nms heat b c i j = 0 := by
  rw [_nms_eq_ite]
  split
  · exact Or.inl rfl
  · exact Or.inr rfl

theorem hmax_le {B C H W : ℕ} (heat : Fin B → Fin C → Fin H → Fin W → ℚ)
    (b : Fin B) (c : Fin C) (i : Fin H) (j : Fin W) {a : ℚ}
    (h : ∀ p ∈ nbhd i j, heat b c p.1 p.2 ≤ a) :
    hmax heat b c i j ≤ a := by
  have hs := Finset.sup'_le (s := nbhd i j) ⟨(i, j), by simp [nbhd]⟩
    (fun q : Fin H × Fin W => heat b c q.1 q.2) h
  exact hs

/-! ## Claim C6 -/

/-- C6: the claim asserts, for ALL inputs, `output ≤ input` elementwise.
This fails on heatmaps with negative entries: in `heatC6` the cell
`(0,0)` holds `-1`, is not the maximum of its neighbourhood (its
neighbour holds `0`), so suppression rewrites it to `0 > -1`. -/
theorem claim_C6_counterexample : ¬ (_nms heatC6 0 0 0 0 ≤ heatC6 0 0 0 0) := by
  have hmem : ((0 : Fin 1), (1 : Fin 2)) ∈ nbhd (0 : Fin 1) (0 : Fin 2) := by decide
  have h1 : heatC6 0 0 0 0 ≠ hmax heatC6 0 0 0 0 := by
    have hle := le_hmax heatC6 0 0 0 0 hmem
    intro he
    rw [← he] at hle
    norm_num [heatC6] at hle
  rw [_nms_eq_ite, if_neg fun hc => h1 hc.symm]
  norm_num [heatC6]

/-- C6 (amended): peak suppression keeps a value exactly when it equals
the maximum of its 3×3 edge-padded neighbourhood and zeroes it otherwise;
consequently a strict local maximum keeps its value and a non-maximal
cell becomes 0, and — for NONNEGATIVE heatmaps (the amendment) — the
output is elementwise ≤ the input. -/
theorem claim_C6_amended {B C H W : ℕ} (heat : Fin B → Fin C → Fin H → Fin W → ℚ)
    (b : Fin B) (c : Fin C) (i : Fin H) (j : Fin W) :
    _nms heat b c i j =
      (if heat b c i j = hmax heat b c i j then heat b c i j else 0) ∧
    ((∀ b' c' i' j', 0 ≤ heat b' c' i' j') → _nms heat b c i j ≤ heat b c i j) ∧
    ((∀ p ∈ nbhd i j, p ≠ (i, j) → heat b c p.1 p.2 < heat b c i j) →
      _nms heat b c i j = heat b c i j) ∧
    (heat b c i j ≠ hmax heat b c i j → _nms heat b c i j = 0) := by
  have hbase := _nms_eq_ite heat b c i j
  refine ⟨?_, ?_, ?_, ?_⟩
  · rw [hbase]
    by_cases h : heat b c i j = hmax heat b c i j
    · rw [if_pos h.symm, if_pos h]
    · rw [if_neg (fun hc => h hc.symm), if_neg h]
  · intro hpos
    rw [hbase]
    split
    · exact le_refl _
    · exact hpos b c i j
  · intro hstrict
    have hm : hmax heat b c i j = heat b c i j := by
      apply le_antisymm
      · apply hmax_le
        intro p hp
        by_cases hpe : p = (i, j)
        · subst hpe; exact le_refl _
        · exact le_of_lt (hstrict p hp hpe)
      · exact le_hmax heat b c i j (self_mem_nbhd i j)
    rw [hbase, if_pos hm]
  · intro hne
    rw [hbase, if_neg (fun hc => hne hc.symm)]

/-- C6 (amended) witness: on the nonnegative map `heatC6w`, the strict
local maximum at `(0,0)` survives unchanged and stays below the input,
and the dominated cell `(0,1)` is zeroed. -/
theorem claim_C6_amended_witness :
    _nms heatC6w 0 0 0 0 ≤ heatC6w 0 0 0 0 ∧
    _nms heatC6w 0 0 0 0 = heatC6w 0 0 0 0 ∧
    _nms heatC6w 0 0 0 1 = 0 :=
  ⟨(claim_C6_amended heatC6w 0 0 0 0).2.1 (by decide),
   (claim_C6_amended heatC6w 0 0 0 0).2.2.1 (by decide),
   (claim_C6_amended heatC6w 0 0 0 1).2.2.2 (by decide)⟩

/-! ## Claim C10 -/

/-- C10: peak suppression is idempotent on nonnegative heatmaps. -/
theorem claim_C10_theorem {B C H W : ℕ} (heat : Fin B → Fin C → Fin H → Fin W → ℚ)
    (hpos : ∀ b c i j, 0 ≤ heat b c i j)
    (b : Fin B) (c : Fin C) (i : Fin H) (j : Fin W) :
    _nms (_nms heat) b c i j = _nms heat b c i j := by
  by_cases hz : _nms heat b c i j = 0
  · rw [nms_apply, hz, zero_mul]
  · have h1 : hmax heat b c i j = heat b c i j ∧ _nms heat b c i j = heat b c i j := by
      have hb := _nms_eq_ite heat b c i j
      by_cases hc : hmax heat b c i j = heat b c i j
      · exact ⟨hc, by rw [hb, if_pos hc]⟩
      · exact absurd (by rw [hb, if_neg hc]) hz
    have hg : hmax (_nms heat) b c i j = _nms heat b c i j := by
      apply le_antisymm
      · apply hmax_le
        intro p hp
        rcases nms_cases heat b c p.1 p.2 with hcase | hcase
        · rw [hcase, h1.2, ← h1.1]
          exact le_hmax heat b c i j hp
        · rw [hcase, h1.2]
          exact hpos b c i j
      · exact le_hmax (_nms heat) b c i j (self_mem_nbhd i j)
    rw [nms_apply, hg, if_pos rfl, mul_one]

/-- C10 witness: idempotence at the nonnegative map `heatC6w`. -/
theorem claim_C10_witness :
    (∀ b c i j, 0 ≤ heatC6w b c i j) ∧
    _nms (_nms heatC6w) 0 0 0 0 = _nms heatC6w 0 0 0 0 :=
  ⟨by decide, claim_C10_theorem heatC6w (by decide) 0 0 0 0⟩

/-! ## Claim C9 -/

/-- C9: gathering a `[B,C,H,W]` field at flat spatial indices yields, at
`(b,k,c)`, the field value at batch `b`, channel `c`, flattened spatial
position `ind b k` (unflattened row-major as `r·W + w`); probing the field
whose flattened axis holds its own position returns the index. -/
theorem claim_C9 {B C H W K : ℕ} (feat : Fin B → Fin C → Fin H → Fin W → ℚ)
    (ind : Fin B → Fin K → Fin (H * W)) (b : Fin B) (k : Fin K) (c : Fin C)
    (r w : ℕ) (hr : r < H) (hw : w < W) (hind : (ind b k).val = r * W + w) :
    _permute_and_gather_feat feat ind b k c = feat b c ⟨r, hr⟩ ⟨w, hw⟩ ∧
    _permute_and_gather_feat (fun _ _ i j => ((i.val * W + j.val : ℕ) : ℚ)) ind b k c =
      ((ind b k).val : ℚ) := by
  have hW : 0 < W := lt_of_le_of_lt (Nat.zero_le w) hw
  have hdiv : (ind b k).val / W = r := by
    rw [hind, Nat.add_comm, Nat.add_mul_div_right _ _ hW, Nat.div_eq_of_lt hw,
      Nat.zero_add]
  have hmod : (ind b k).val % W = w := by
    rw [hind, Nat.add_comm, Nat.add_mul_mod_self_right, Nat.mod_eq_of_lt hw]
  constructor
  · show featView feat b (ind b k) c = feat b c ⟨r, hr⟩ ⟨w, hw⟩
    unfold featView
    congr 1
    · exact Fin.ext hdiv
    · exact Fin.ext hmod
  · show (((ind b k).divNat.val * W + (ind b k).modNat.val : ℕ) : ℚ) = (((ind b k).val : ℕ) : ℚ)
    congr 1
    rw [Fin.coe_divNat, Fin.coe_modNat]
    exact Nat.div_add_mod' _ _

/-- C9 witness: on the `[1,1,2,3]` map `featC9` holding `10·row + col`,
gathering at flat index 4 (= row 1, col 1) returns `featC9 _ _ 1 1`, and
the identity probe at index 4 returns 4. -/
theorem claim_C9_witness :
    (indC9 0 0).val = 1 * 3 + 1 ∧
    _permute_and_gather_feat featC9 indC9 0 0 0 = featC9 0 0 ⟨1, by omega⟩ ⟨1, by omega⟩ ∧
    _permute_and_gather_feat
        (fun (_ : Fin 1) (_ : Fin 1) (i : Fin 2) (j : Fin 3) => ((i.val * 3 + j.val : ℕ) : ℚ))
        indC9 0 0 0 = ((indC9 0 0).val : ℚ) :=
  ⟨rfl,
   (claim_C9 featC9 indC9 0 0 0 1 1 (by omega) (by omega) rfl).1,
   (claim_C9 featC9 indC9 0 0 0 1 1 (by omega) (by omega) rfl).2⟩

/-! ## Claim C7 -/

/-- C7 (counterexample): the claim's precondition is `K ≤ C·H·W`, but the
stage-1 per-class `torch.topk` of `_topk` requires `K ≤ H·W`.  With
`C = 2`, `H = W = 1`, `K = 2` the precondition `2 ≤ 2` holds yet `_topk`
raises (modelled `none`) instead of returning sorted scores. -/
theorem claim_C7_counterexample :
    2 ≤ 2 * (1 * 1) ∧ _topk heatC7 2 = none := by
  constructor
  · decide
  · rfl

/-- C7 (amended): under the corrected precondition `K ≤ H·W` (and
`K ≤ C·K`, i.e. at least one class when `K > 0`), `_topk` succeeds and
returns `_topkOut`, whose scores are sorted descending, whose flat
indices all lie in `[0, H·W)`, and whose class id equals the stage-2 flat
rank divided by `K` — the class channel whose stage-1 list supplied the
candidate's score and index. -/
theorem claim_C7_amended {B C H W : ℕ} (heat4 : Fin B → Fin C → Fin H → Fin W → ℚ)
    (K : ℕ) (h1 : K ≤ H * W) (h2 : K ≤ C * K) :
    _topk heat4 K = some (_topkOut heat4 K h1 h2) ∧
    (∀ (b : Fin B) (i j : Fin K), i ≤ j →
      (_topkOut heat4 K h1 h2).scores b j ≤ (_topkOut heat4 K h1 h2).scores b i) ∧
    (∀ (b : Fin B) (k : Fin K), ((_topkOut heat4 K h1 h2).indsF b k).val < H * W) ∧
    (∀ (b : Fin B) (k : Fin K),
      (_topkOut heat4 K h1 h2).clsN b k = (st2Sel heat4 K h1 h2 b k).val / K ∧
      (_topkOut heat4 K h1 h2).scores b k =
        st1Score heat4 K h1 b (st2Sel heat4 K h1 h2 b k).divNat
          (st2Sel heat4 K h1 h2 b k).modNat ∧
      (_topkOut heat4 K h1 h2).indsF b k =
        st1Ind heat4 K h1 b (st2Sel heat4 K h1 h2 b k).divNat
          (st2Sel heat4 K h1 h2 b k).modNat) := by
  refine ⟨?_, ?_, ?_, ?_⟩
  · unfold _topk
    rw [dif_pos ⟨h1, h2⟩]
  · intro b i j hij
    exact topkIdx_score_antitone (s1Flat heat4 K h1 b) K h2 hij
  · intro b k
    exact ((_topkOut heat4 K h1 h2).indsF b k).isLt
  · intro b k
    exact ⟨rfl, rfl, rfl⟩

/-- C7 (amended) witness at `B = C = H = W = K = 1`. -/
theorem claim_C7_amended_witness :
    _topk heatC7w 1 = some (_topkOut heatC7w 1 (by omega) (by omega)) ∧
    ((_topkOut heatC7w 1 (by omega) (by omega)).indsF 0 0).val < 1 * 1 ∧
    (_topkOut heatC7w 1 (by omega) (by omega)).scores 0 0 ≤
      (_topkOut heatC7w 1 (by omega) (by omega)).scores 0 0 :=
  ⟨(claim_C7_amended heatC7w 1 (by omega) (by omega)).1,
   (claim_C7_amended heatC7w 1 (by omega) (by omega)).2.2.1 0 0,
   (claim_C7_amended heatC7w 1 (by omega) (by omega)).2.1 0 0 0 (le_refl 0)⟩

/-! ## Refinement helper lemmas -/

theorem hmScore1_eq {B J K : ℕ} (hmScore0 : Fin B → Fin J → Fin K → ℚ)
    (b : Fin B) (j : Fin J) (c : Fin K) :
    hmScore1 hmScore0 b j c =
      if hmScore0 b j c > 1/10 then hmScore0 b j c else -1 := by
  unfold hmScore1 kpMask
  split <;> ring

theorem hmCoord1_eq {B J K : ℕ} (hmScore0 coord : Fin B → Fin J → Fin K → ℚ)
    (b : Fin B) (j : Fin J) (c : Fin K) :
    hmCoord1 hmScore0 coord b j c =
      if hmScore0 b j c > 1/10 then coord b j c else -10000 := by
  unfold hmCoord1 kpMask
  split <;> ring

theorem distSq_nonneg {B J K : ℕ} (kpsReg : Fin B → Fin J → Fin K → ℚ × ℚ)
    (hmScore0 hmXs0 hmYs0 : Fin B → Fin J → Fin K → ℚ)
    (b : Fin B) (j : Fin J) (k : Fin K) (c : Fin K) :
    0 ≤ distSq kpsReg hmScore0 hmXs0 hmYs0 b j k c :=
  add_nonneg (sq_nonneg _) (sq_nonneg _)

/-! ## Claim C5 -/

theorem wrap_once (p s : ℚ) :
    (if (if s > p then s - 2 * p else s) < -p
      then (if s > p then s - 2 * p else s) + 2 * p
      else (if s > p then s - 2 * p else s)) =
    (if s > p then s - 2 * p else if s < -p then s + 2 * p else s) := by
  split_ifs <;> linarith

/-- C5: the yaw equals `alpha + atan2(kps_x9 - c_x, f)` with
`alpha = atan(rot2/rot3) - pi/2` when channel 1 exceeds channel 5 and
`alpha = atan(rot6/rot7) + pi/2` otherwise, normalized by a single ±2π
wrap (the code's two sequential masked wraps can fire at most once). -/
theorem claim_C5 {B N : ℕ} (kps2 : Fin B → Fin N → Fin 18 → ℚ)
    (rot8 : Fin B → Fin N → Fin 8 → ℚ) (out_inv : Fin B → Fin 2 → Fin 3 → ℚ)
    (calib : Fin B → Fin 3 → Fin 4 → ℚ) (T : TrigModel) (b : Fin B) (n : Fin N) :
    rotYOf kps2 rot8 out_inv calib T b n =
      (let alpha :=
        if rot8 b n 1 > rot8 b n 5
          then T.atan (rot8 b n 2 / rot8 b n 3) - T.pi / 2
          else T.atan (rot8 b n 6 / rot8 b n 7) + T.pi / 2
       let s := alpha +
         T.atan2 (kpsTOf kps2 out_inv b n 16 - calib b 0 2) (calib b 0 0)
       if s > T.pi then s - 2 * T.pi
       else if s < -T.pi then s + 2 * T.pi
       else s) := by
  have halpha : alphaOf rot8 T b n =
      if rot8 b n 1 > rot8 b n 5
        then T.atan (rot8 b n 2 / rot8 b n 3) - T.pi / 2
        else T.atan (rot8 b n 6 / rot8 b n 7) + T.pi / 2 := by
    unfold alphaOf
    split_ifs <;> ring
  unfold rotYOf
  dsimp only
  rw [wrap_once, halpha]
  rfl

/-! ## Claim C2 -/

theorem det3_eq_det (M : Matrix (Fin 3) (Fin 3) ℚ) : det3 M = M.det := by
  rw [Matrix.det_fin_three]
  unfold det3
  ring

theorem mul_inv3 (M : Matrix (Fin 3) (Fin 3) ℚ) (h : det3 M ≠ 0) :
    M * inv3 M = 1 := by
  unfold inv3
  rw [Matrix.mul_smul]
  have hadj : M *
      !![M 1 1 * M 2 2 - M 1 2 * M 2 1, M 0 2 * M 2 1 - M 0 1 * M 2 2,
          M 0 1 * M 1 2 - M 0 2 * M 1 1;
        M 1 2 * M 2 0 - M 1 0 * M 2 2, M 0 0 * M 2 2 - M 0 2 * M 2 0,
          M 0 2 * M 1 0 - M 0 0 * M 1 2;
        M 1 0 * M 2 1 - M 1 1 * M 2 0, M 0 1 * M 2 0 - M 0 0 * M 2 1,
          M 0 0 * M 1 1 - M 0 1 * M 1 0] =
      det3 M • (1 : Matrix (Fin 3) (Fin 3) ℚ) := by
    ext i j
    fin_cases i <;> fin_cases j <;>
      · simp [Matrix.mul_apply, Fin.sum_univ_three, Matrix.one_apply, det3]
        ring
  rw [hadj, smul_smul, inv_mul_cancel₀ h, one_smul]

theorem inv3_eq_inv (M : Matrix (Fin 3) (Fin 3) ℚ) (h : det3 M ≠ 0) :
    inv3 M = M⁻¹ :=
  (Matrix.inv_eq_right_inv (mul_inv3 M h)).symm

/-- C2: whenever `transform_img2cam` returns, the position it returns for
an object is the normal-equations solution `(AᵀA)⁻¹ Aᵀ b` for the design
matrix `A = matrix_left` — whose first two columns are the `const` sign
pattern and whose third column is that object's calibration-normalized
keypoint vector — and the right-hand side `b = matrix_B − kp_norm ⊙
matrix_C` built from that object's dimensions and yaw. -/
theorem claim_C2 {B N : ℕ} (kps2 : Fin B → Fin N → Fin 18 → ℚ)
    (dimF : Fin B → Fin N → Fin 3 → ℚ) (rot8 : Fin B → Fin N → Fin 8 → ℚ)
    (out_inv : Fin B → Fin 2 → Fin 3 → ℚ) (calib : Fin B → Fin 3 → Fin 4 → ℚ)
    (cst : Fin 16 → Fin 2 → ℚ) (T : TrigModel) (out : TransformOut B N)
    (h : transform_img2cam kps2 dimF rot8 out_inv calib cst T = some out)
    (b : Fin B) (n : Fin N) :
    out.pos b n =
      (Matrix.transpose (matrixLeftOf kps2 out_inv calib cst b n) *
          matrixLeftOf kps2 out_inv calib cst b n)⁻¹.mulVec
        ((Matrix.transpose (matrixLeftOf kps2 out_inv calib cst b n)).mulVec
          (rhsOf kps2 dimF rot8 out_inv calib T b n)) ∧
    (∀ r : Fin 16,
      matrixLeftOf kps2 out_inv calib cst b n r 0 = cst r 0 ∧
      matrixLeftOf kps2 out_inv calib cst b n r 1 = cst r 1 ∧
      matrixLeftOf kps2 out_inv calib cst b n r 2 = kpNormOf kps2 out_inv calib b n r) ∧
    (∀ r : Fin 16,
      rhsOf kps2 dimF rot8 out_inv calib T b n r =
        matrixBOf kps2 dimF rot8 out_inv calib T b n r -
          kpNormOf kps2 out_inv calib b n r *
            matrixCOf kps2 dimF rot8 out_inv calib T b n r) := by
  unfold transform_img2cam at h
  split_ifs at h with hc
  · refine ⟨?_, fun r => ⟨rfl, rfl, rfl⟩, fun r => rfl⟩
    have hout : out.pos = posOf kps2 dimF rot8 out_inv calib cst T := by
      have := Option.some.inj h
      rw [← this]
    rw [hout]
    unfold posOf
    rw [← Matrix.mulVec_mulVec,
      inv3_eq_inv (AtAOf kps2 out_inv calib cst b n) (hc.2 b n)]
    rfl

theorem kpsT_ex (ch : Fin 18) : kpsTOf kps2Ex outInvEx 0 0 ch = (ch.val : ℚ) := by
  unfold kpsTOf kps2Ex outInvEx
  by_cases hp : ch.val % 2 = 0
  · rw [if_pos hp]
    norm_num
    exact_mod_cast (by omega : 2 * (ch.val / 2) = ch.val)
  · rw [if_neg hp]
    norm_num
    exact_mod_cast (by omega : 2 * (ch.val / 2) + 1 = ch.val)

theorem kpNorm_ex (r : Fin 16) :
    kpNormOf kps2Ex outInvEx calibEx 0 0 r = (r.val : ℚ) := by
  unfold kpNormOf
  rw [kpsT_ex]
  norm_num [calibEx]

set_option maxHeartbeats 1600000 in
theorem AtA_ex :
    AtAOf kps2Ex outInvEx calibEx cstEx 0 0 =
      !![8, 0, -56; 0, 8, -64; -56, -64, 1240] := by
  unfold AtAOf matrixLeftOf
  ext i j
  fin_cases i <;> fin_cases j <;>
    · simp [Matrix.mul_apply, Matrix.transpose_apply, Fin.sum_univ_succ, kpNorm_ex, cstEx]
      try norm_num

theorem det_ex (b n : Fin 1) :
    det3 (AtAOf kps2Ex outInvEx calibEx cstEx b n) ≠ 0 := by
  have hb : b = 0 := Subsingleton.elim _ _
  have hn : n = 0 := Subsingleton.elim _ _
  subst hb hn
  rw [AtA_ex]
  norm_num [det3]

/-- C2 witness: a concrete single-object input on which the transform
succeeds and the returned position is the normal-equations solution. -/
theorem claim_C2_witness :
    transform_img2cam kps2Ex dimFEx rot8Ex outInvEx calibEx cstEx T0 = some trC2 ∧
    trC2.pos 0 0 =
      (Matrix.transpose (matrixLeftOf kps2Ex outInvEx calibEx cstEx 0 0) *
          matrixLeftOf kps2Ex outInvEx calibEx cstEx 0 0)⁻¹.mulVec
        ((Matrix.transpose (matrixLeftOf kps2Ex outInvEx calibEx cstEx 0 0)).mulVec
          (rhsOf kps2Ex dimFEx rot8Ex outInvEx calibEx T0 0 0)) := by
  have hsome : transform_img2cam kps2Ex dimFEx rot8Ex outInvEx calibEx cstEx T0 =
      some trC2 := by
    unfold transform_img2cam
    rw [if_pos ⟨rfl, det_ex⟩]
    rfl
  exact ⟨hsome,
    (claim_C2 kps2Ex dimFEx rot8Ex outInvEx calibEx cstEx T0 trC2 hsome 0 0).1⟩

/-! ## Claim C4 -/

/-- C4: with the optional inputs absent, `object_pose_decode` does NOT
complete: the refinement block is skipped but the final concatenation
still reads `hm_score`, a local assigned only inside that block, so the
call raises `NameError` (modelled `none`) instead of returning a
detection batch. -/
theorem claim_C4_theorem : object_pose_decode 1 dinExNoKph = none := rfl

/-! ## Concrete evaluation helpers at 1×1 spatial size -/

theorem fin1_eq_zero (x : Fin 1) : x = 0 := Fin.ext (by omega)

theorem app_fin1 {B C : ℕ} (f : Fin B → Fin C → Fin 1 → Fin 1 → ℚ)
    (b : Fin B) (c : Fin C) (x y : Fin 1) : f b c x y = f b c 0 0 := by
  rw [fin1_eq_zero x, fin1_eq_zero y]

theorem hmax_one {B C : ℕ} (heat : Fin B → Fin C → Fin 1 → Fin 1 → ℚ)
    (b : Fin B) (c : Fin C) : hmax heat b c 0 0 = heat b c 0 0 := by
  apply le_antisymm
  · apply hmax_le
    intro p _
    rw [fin1_eq_zero p.1, fin1_eq_zero p.2]
  · exact le_hmax heat b c 0 0 (self_mem_nbhd 0 0)

theorem nms_one {B C : ℕ} (heat : Fin B → Fin C → Fin 1 → Fin 1 → ℚ)
    (b : Fin B) (c : Fin C) : _nms heat b c 0 0 = heat b c 0 0 := by
  rw [nms_apply, hmax_one, if_pos rfl, mul_one]

theorem chanOut_one (kph : Fin 1 → Fin 9 → Fin 1 → Fin 1 → ℚ) (h1 : 1 ≤ 1 * 1)
    (j : Fin 9) :
    (_topk_channelOut kph 1 h1).scores 0 j 0 = kph 0 j 0 0 ∧
    (_topk_channelOut kph 1 h1).xsQ 0 j 0 = 0 ∧
    (_topk_channelOut kph 1 h1).ysQ 0 j 0 = 0 := by
  refine ⟨?_, ?_, ?_⟩
  · show chanFlat kph 0 j _ = kph 0 j 0 0
    unfold chanFlat
    exact app_fin1 kph 0 j _ _
  · show (((topkIdx (chanFlat kph 0 j) 1 h1 0).val % 1 : ℕ) : ℚ) = 0
    rw [Nat.mod_one, Nat.cast_zero]
  · show (((topkIdx (chanFlat kph 0 j) 1 h1 0).val / 1 : ℕ) : ℚ) = 0
    rw [Nat.div_one]
    have hv : (topkIdx (chanFlat kph 0 j) 1 h1 0).val = 0 := by omega
    rw [hv, Nat.cast_zero]


/-! ## Claims C1, C3, C8 -/

/-- C1: the claim asserts decode returns a `[batch, K, 28]` detection
array on every valid keypoint-heatmap-path input.  The code never
returns on ANY input: on the keypoint-heatmap path line 403 raises
`TypeError` (the float tensor `bottom` passed as an `expand` size), and
with `kps_heatmap=None` line 410 raises `NameError` on the unbound
`hm_score`; the concatenation of lines 409-411 is dead code (and its
widths — `kps_inv` 18, `hm_score` 9 — would give 41 fields, not 28,
even if it were reached). -/
theorem claim_C1_theorem {B C H W : ℕ} (K : ℕ) [NeZero K] (din : DecodeIn B C H W) :
    object_pose_decode K din = none := by
  unfold object_pose_decode
  cases _topk (_nms din.heat) K with
  | none => rfl
  | some o =>
    rw [Option.some_bind]
    cases din.kps_heatmap with
    | none => rfl
    | some kph =>
      dsimp only
      cases _topk_channel (_nms kph) K <;> rfl

/-- C1 witness: the concrete keypoint-heatmap-path input `dinEx` never
produces a detection array. -/
theorem claim_C1_theorem_witness : object_pose_decode 1 dinEx = none :=
  claim_C1_theorem 1 dinEx

/-- C3: the claim describes the per-keypoint acceptance select of line
404 — which never executes: line 403 raises `TypeError` first on every
keypoint-heatmap run, so no estimate is ever replaced or kept.  On
`dinC3` every heatmap candidate scores 1 (> 0.1, so none is
invalidated) and sits exactly on its regression keypoint strictly inside
the box — the claim's "always selected" scenario — yet decode raises
instead of returning. -/
theorem claim_C3_theorem :
    object_pose_decode 1 dinC3 = none ∧
    (∀ (j : Fin 9) (c : Fin 1), 1/10 < chC3.scores 0 j c) := by
  refine ⟨rfl, ?_⟩
  intro j c
  have hsc : chC3.scores 0 j c = 1 := by
    rw [fin1_eq_zero c]
    calc chC3.scores 0 j 0 = _nms kphC3 0 j 0 0 :=
          (chanOut_one (_nms kphC3) (by omega) j).1
      _ = kphC3 0 j 0 0 := nms_one kphC3 0 j
      _ = 1 := rfl
  rw [hsc]
  norm_num

/-- C8: the invalidation of lines 376-379 is real — on `dinC8` every
candidate scores 0.05 ≤ 0.1, its score is forced to -1 and its
coordinates to -10000 — but the "never selected" half fails on the
code: the executed arg-min and gather of lines 382-389 match an
invalidated candidate to every regression keypoint (the matched score
`hm_score.gather(2, min_ind)` is -1), and the line-404 select that would
discard that match never executes because line 403 raises `TypeError`:
decode never returns. -/
theorem claim_C8_theorem :
    object_pose_decode 1 dinC8 = none ∧
    (∀ (j : Fin 9) (c : Fin 1),
      chC8.scores 0 j c ≤ 1/10 ∧
      hmScore1 chC8.scores 0 j c = -1 ∧
      hmCoord1 chC8.scores (hmXs0Of dinC8 chC8) 0 j c = -10000 ∧
      hmCoord1 chC8.scores (hmYs0Of dinC8 chC8) 0 j c = -10000) ∧
    (∀ (j : Fin 9) (k : Fin 1),
      hmScoreG (kpsRegOf dinC8 oEx) chC8.scores (hmXs0Of dinC8 chC8)
        (hmYs0Of dinC8 chC8) 0 j k = -1) := by
  have hs : ∀ (j : Fin 9) (c : Fin 1), chC8.scores 0 j c = 1/20 := by
    intro j c
    rw [fin1_eq_zero c]
    calc chC8.scores 0 j 0 = _nms kphC8 0 j 0 0 :=
          (chanOut_one (_nms kphC8) (by omega) j).1
      _ = kphC8 0 j 0 0 := nms_one kphC8 0 j
      _ = 1/20 := rfl
  refine ⟨rfl, ?_, ?_⟩
  · intro j c
    refine ⟨by rw [hs]; norm_num, ?_, ?_, ?_⟩
    · rw [hmScore1_eq, hs, if_neg (by norm_num : ¬((1:ℚ)/20 > 1/10))]
    · rw [hmCoord1_eq, hs, if_neg (by norm_num : ¬((1:ℚ)/20 > 1/10))]
    · rw [hmCoord1_eq, hs, if_neg (by norm_num : ¬((1:ℚ)/20 > 1/10))]
  · intro j k
    unfold hmScoreG
    rw [hmScore1_eq, hs, if_neg (by norm_num : ¬((1:ℚ)/20 > 1/10))]
